import Mathlib

/-!
Verification of the cs-web-server core (webxash3d-fwgs).

Each Go construct referenced by the claims is shallowly embedded as an
executable Lean definition, translated from the Go source under
`docker/cs-web-server/src/server`.  Stateful code is modelled by explicit
state passing; machine integers are modelled by `Nat`/`Int`/`Rat` with
explicit truncation where the Go code truncates.
-/

namespace WebXash

/-! ## CircularBuffer (logging.go)

`CircularBuffer` is the fixed-capacity ring of log entries.  The Go slice
`buffer []*LogEntry` is modelled as a `List (Option α)` (a `nil` pointer is
`none`); `head`, `size`, `capacity` are the `int` fields. -/

structure CircularBuffer (α : Type) where
  buffer : List (Option α)
  capacity : Nat
  head : Nat
  size : Nat

/-- `NewCircularBuffer` (logging.go): all-nil slice of the given capacity. -/
def NewCircularBuffer (α : Type) (capacity : Nat) : CircularBuffer α :=
  { buffer := List.replicate capacity none
    capacity := capacity
    head := 0
    size := 0 }

/-- `CircularBuffer.Add` (logging.go): write at `head`, advance `head`
modulo `capacity`, grow `size` up to `capacity`. -/
def CircularBuffer.Add (cb : CircularBuffer α) (entry : α) : CircularBuffer α :=
  { buffer := cb.buffer.set cb.head (some entry)
    capacity := cb.capacity
    head := (cb.head + 1) % cb.capacity
    size := if cb.size < cb.capacity then cb.size + 1 else cb.size }

/-- `CircularBuffer.GetAll` (logging.go): `start := head - size`, wrapped
into range by adding `capacity` when negative (Go `int` arithmetic), then
`size` reads at successive indices modulo `capacity`. -/
def CircularBuffer.GetAll (cb : CircularBuffer α) : List (Option α) :=
  if cb.size = 0 then []
  else
    let start := if cb.head < cb.size then cb.head + cb.capacity - cb.size
                 else cb.head - cb.size
    (List.range cb.size).map (fun i => cb.buffer.getD ((start + i) % cb.capacity) none)

/-- Folding `Add` over a list of entries, in order. -/
def CircularBuffer.addAll (cb : CircularBuffer α) (es : List α) : CircularBuffer α :=
  es.foldl CircularBuffer.Add cb

lemma mod_ne_of_between {N i L : ℕ} (h1 : i < L) (h2 : L < i + N) :
    i % N ≠ L % N := by
  intro h
  have hdvd : N ∣ L - i := (Nat.modEq_iff_dvd' h1.le).mp h
  have := Nat.le_of_dvd (by omega) hdvd
  omega

lemma addAll_state (N : ℕ) (hN : 0 < N) (es : List α) :
    ((NewCircularBuffer α N).addAll es).capacity = N
    ∧ ((NewCircularBuffer α N).addAll es).buffer.length = N
    ∧ ((NewCircularBuffer α N).addAll es).head = es.length % N
    ∧ ((NewCircularBuffer α N).addAll es).size = min es.length N
    ∧ ∀ i : ℕ, i < es.length → es.length ≤ i + N →
        ((NewCircularBuffer α N).addAll es).buffer[i % N]? = es[i]?.map some := by
  induction es using List.reverseRecOn with
  | nil =>
      refine ⟨rfl, ?_, ?_, ?_, ?_⟩
      · simp [NewCircularBuffer, CircularBuffer.addAll]
      · simp [NewCircularBuffer, CircularBuffer.addAll]
      · simp [NewCircularBuffer, CircularBuffer.addAll]
      · intro i hi _; simp at hi
  | append_singleton es e ih =>
      obtain ⟨hcap, hlen, hhead, hsize, hbuf⟩ := ih
      have hstep : (NewCircularBuffer α N).addAll (es ++ [e])
          = ((NewCircularBuffer α N).addAll es).Add e := by
        simp [CircularBuffer.addAll]
      rw [hstep]
      set st := (NewCircularBuffer α N).addAll es with hst
      refine ⟨by simp [CircularBuffer.Add, hcap], ?_, ?_, ?_, ?_⟩
      · simp [CircularBuffer.Add, hlen]
      · simp only [CircularBuffer.Add, hcap, hhead, List.length_append,
          List.length_singleton]
        exact Nat.mod_add_mod es.length N 1
      · simp only [CircularBuffer.Add, hcap, hsize, List.length_append,
          List.length_singleton]
        split_ifs <;> omega
      · intro i hi hi2
        simp only [List.length_append, List.length_singleton] at hi hi2
        simp only [CircularBuffer.Add, hhead]
        rcases Nat.lt_or_ge i es.length with hlt | hge
        · have hne : i % N ≠ es.length % N := mod_ne_of_between hlt (by omega)
          rw [List.getElem?_set_ne hne.symm, List.getElem?_append_left hlt]
          exact hbuf i hlt (by omega)
        · have hieq : i = es.length := by omega
          subst hieq
          rw [List.getElem?_set_self (by rw [hlen]; exact Nat.mod_lt _ hN)]
          rw [List.getElem?_concat_length]
          rfl

lemma getAll_addAll (N : ℕ) (hN : 0 < N) (es : List α) :
    ((NewCircularBuffer α N).addAll es).GetAll
      = (es.drop (es.length - N)).map some := by
  obtain ⟨hcap, hlen, hhead, hsize, hbuf⟩ := addAll_state N hN es
  set st := (NewCircularBuffer α N).addAll es with hst
  set L := es.length with hL
  set S := min L N with hS
  rcases Nat.eq_zero_or_pos L with hL0 | hLpos
  · have hes : es = [] := List.length_eq_zero.mp hL0
    subst hes
    simp [CircularBuffer.GetAll, hsize, hS, hL]
  · have hS0 : S ≠ 0 := by omega
    have hdiv := Nat.div_add_mod L N
    unfold CircularBuffer.GetAll
    rw [hsize, hcap, hhead]
    simp only [← hS, if_neg hS0]
    have hmodlt : L % N < N := Nat.mod_lt _ hN
    apply List.ext_getElem?
    intro i
    rcases Nat.lt_or_ge i S with hiS | hiS
    · have hidx : L - S + i < L := by omega
      have hkey := hbuf (L - S + i) hidx (by omega)
      have hstart :
          (((if L % N < S then L % N + N - S else L % N - S) + i) % N)
            = (L - S + i) % N := by
        split_ifs with hc
        · have hmod : L - S + i + N = ((L % N + N - S) + i) + N * (L / N) := by
            omega
          calc (L % N + N - S + i) % N
              = ((L % N + N - S + i) + N * (L / N)) % N := by
                rw [Nat.add_mul_mod_self_left]
            _ = (L - S + i + N) % N := by rw [← hmod]
            _ = (L - S + i) % N := Nat.add_mod_right _ _
        · have hmod : L - S + i = ((L % N - S) + i) + N * (L / N) := by
            omega
          rw [hmod, Nat.add_mul_mod_self_left]
      rw [List.getElem?_map, List.getElem?_range hiS]
      simp only [Option.map_some']
      rw [hstart]
      have hgd : st.buffer.getD ((L - S + i) % N) none
          = some (es.get ⟨L - S + i, hidx⟩) := by
        have h9 : st.buffer[(L - S + i) % N]?
            = some (some (es.get ⟨L - S + i, hidx⟩)) := by
          rw [hkey, List.getElem?_eq_getElem hidx, Option.map_some']
          rfl
        simp [List.getD_eq_getElem?_getD, h9]
      rw [hgd]
      have hdropL : L - (L - N) = S := by omega
      rw [List.getElem?_map, List.getElem?_drop,
        List.getElem?_eq_getElem (by omega : L - N + i < L)]
      have : L - N + i = L - S + i := by omega
      simp [this, List.get_eq_getElem]
    · rw [List.getElem?_map, List.getElem?_map]
      have h1 : (List.range S)[i]? = none := by
        rw [List.getElem?_eq_none]
        simpa using hiS
      have h2 : (es.drop (L - N))[i]? = none := by
        rw [List.getElem?_eq_none]
        rw [List.length_drop]
        omega
      rw [h1, h2]
      rfl

/-- C6: for every capacity `N > 0`, after adding any sequence of entries in
order, `GetAll` returns exactly the last `min length N` entries
oldest-to-newest (so exactly the last `N` once `N + k` entries were added),
and its length never exceeds the capacity. -/
theorem circularBuffer_getAll_lastN (N : ℕ) (hN : 0 < N) (es : List α) :
    ((NewCircularBuffer α N).addAll es).GetAll
        = (es.drop (es.length - N)).map some
    ∧ ((NewCircularBuffer α N).addAll es).GetAll.length ≤ N := by
  have h := getAll_addAll N hN es
  refine ⟨h, ?_⟩
  rw [h, List.length_map, List.length_drop]
  omega

/-- Witness for C6 at capacity 2 with three entries: the two newest survive,
oldest first. -/
theorem circularBuffer_getAll_lastN_witness :
    ((NewCircularBuffer ℕ 2).addAll [10, 20, 30]).GetAll = [some 20, some 30]
    ∧ ((NewCircularBuffer ℕ 2).addAll [10, 20, 30]).GetAll.length ≤ 2 := by
  have h := circularBuffer_getAll_lastN 2 (by decide) [10, 20, 30]
  exact ⟨h.1.trans (by decide), h.2⟩

/-! ## Peer-session teardown order (config.go, websocketHandler)

`websocketHandler` registers, in source order, the deferred cleanups
`c.Close()` (signaling websocket), `peerConnection.Close()`,
`pool.TryPut(index)`, the closure closing `readChannel`, and
`writeChannel.Close()`.  Go executes deferred calls in reverse
registration order when the handler returns. -/

inductive TeardownEvent where
  | closeWebsocket
  | closePeerConnection
  | returnIndex
  | closeReadChannel
  | closeWriteChannel
  deriving DecidableEq

/-- The deferred cleanups of `websocketHandler`, in registration order. -/
def websocketHandlerDefers : List TeardownEvent :=
  [.closeWebsocket, .closePeerConnection, .returnIndex,
   .closeReadChannel, .closeWriteChannel]

/-- The teardown sequence actually executed on handler exit (LIFO). -/
def teardownSequence : List TeardownEvent := websocketHandlerDefers.reverse

/-- C3 counterexample: the pool index is NOT returned only after the peer
connection's teardown has completed — `pool.TryPut(index)` runs strictly
before `peerConnection.Close()` in the executed teardown sequence. -/
theorem teardown_returnIndex_before_pc_close :
    ¬ (teardownSequence.indexOf .closePeerConnection
        < teardownSequence.indexOf .returnIndex) := by decide

/-- C3 amended: the pool index is returned after both data channels are
closed (so the sequential read loop can attribute no further packet to it),
but before the peer connection and signaling websocket are closed. -/
theorem teardown_returnIndex_order :
    teardownSequence.indexOf .closeWriteChannel
        < teardownSequence.indexOf .returnIndex
    ∧ teardownSequence.indexOf .closeReadChannel
        < teardownSequence.indexOf .returnIndex
    ∧ teardownSequence.indexOf .returnIndex
        < teardownSequence.indexOf .closePeerConnection
    ∧ teardownSequence.indexOf .returnIndex
        < teardownSequence.indexOf .closeWebsocket := by decide

/-! ## VirtualNet sends (SFUNet.SendTo / SendToBatch)

`connections` maps the first synthetic-address byte (`Addr.IP[0]`) to the
peer's detached data-channel writer.  A writer is modelled as a function
from the payload to `Option ℕ` (`some n` = `n` bytes written, `none` =
write error); a `nil` entry in the table is `none`. -/

structure Packet where
  ip0 : ℕ
  data : List ℕ

structure NetEnv where
  connections : ℕ → Option (List ℕ → Option ℕ)

/-- `SFUNet.SendTo` (from the virtual-net source file): `-1` when the
connection is absent or the write fails, else the byte count written. -/
def SFUNet.SendTo (env : NetEnv) (packet : Packet) : Int :=
  match env.connections packet.ip0 with
  | none => -1
  | some write =>
      match write packet.data with
      | none => -1
      | some nn => (nn : Int)

/-- The accumulator loop of `SFUNet.SendToBatch`: `sum := 0`; for each
packet, send it, abort with `-1` on a failed element, else add its bytes. -/
def sendToBatchLoop (env : NetEnv) : List Packet → Int → Int
  | [], sum => sum
  | p :: ps, sum =>
      let nn := SFUNet.SendTo env p
      if nn = -1 then -1 else sendToBatchLoop env ps (sum + nn)

/-- `SFUNet.SendToBatch` (from the virtual-net source file). -/
def SFUNet.SendToBatch (env : NetEnv) (packets : List Packet) : Int :=
  sendToBatchLoop env packets 0

/-- The packets whose write was performed and succeeded before the batch
aborted: the loop stops at the first failing element, so exactly the
elements before it are delivered, and no later element is attempted. -/
def SFUNet.sendToBatchDelivered (env : NetEnv) : List Packet → List Packet
  | [] => []
  | p :: ps =>
      if SFUNet.SendTo env p = -1 then []
      else p :: SFUNet.sendToBatchDelivered env ps

lemma sendToBatchLoop_spec (env : NetEnv) (packets : List Packet) (acc : Int) :
    sendToBatchLoop env packets acc =
      match packets.findIdx? (fun p => SFUNet.SendTo env p == -1) with
      | none => acc + (packets.map (SFUNet.SendTo env)).sum
      | some _ => -1 := by
  induction packets generalizing acc with
  | nil => simp [sendToBatchLoop]
  | cons p ps ih =>
      simp only [sendToBatchLoop, List.findIdx?_cons, List.map_cons,
        List.sum_cons]
      by_cases h : SFUNet.SendTo env p = -1
      · simp [h]
      · rw [if_neg h, ih]
        have hb : (SFUNet.SendTo env p == -1) = false := by
          simpa using h
        rw [hb]
        cases hfind : ps.findIdx? (fun q => SFUNet.SendTo env q == -1) with
        | none => simp [hfind]; ring
        | some j => simp [hfind]

lemma sendToBatchDelivered_spec (env : NetEnv) (packets : List Packet) :
    SFUNet.sendToBatchDelivered env packets =
      match packets.findIdx? (fun p => SFUNet.SendTo env p == -1) with
      | none => packets
      | some j => packets.take j := by
  induction packets with
  | nil => simp [SFUNet.sendToBatchDelivered]
  | cons p ps ih =>
      simp only [SFUNet.sendToBatchDelivered, List.findIdx?_cons]
      by_cases h : SFUNet.SendTo env p = -1
      · simp [h]
      · have hb : (SFUNet.SendTo env p == -1) = false := by simpa using h
        rw [if_neg h, ih, hb]
        cases hfind : ps.findIdx? (fun q => SFUNet.SendTo env q == -1) with
        | none => simp [hfind]
        | some j => simp [hfind]

/-- C9: the batch send returns the total byte count when every element
sends successfully (delivering all of them); at the first failing element
it returns `-1`, with exactly the earlier elements delivered (no rollback)
and no later element sent. -/
theorem sendToBatch_firstFailure (env : NetEnv) (packets : List Packet) :
    (SFUNet.SendToBatch env packets,
      SFUNet.sendToBatchDelivered env packets) =
      match packets.findIdx? (fun p => SFUNet.SendTo env p == -1) with
      | none => ((packets.map (SFUNet.SendTo env)).sum, packets)
      | some j => (-1, packets.take j) := by
  have h1 := sendToBatchLoop_spec env packets 0
  have h2 := sendToBatchDelivered_spec env packets
  unfold SFUNet.SendToBatch
  cases hfind : packets.findIdx? (fun p => SFUNet.SendTo env p == -1) with
  | none =>
      rw [hfind] at h1 h2
      simp at h1
      rw [h1, h2]
  | some j =>
      rw [hfind] at h1 h2
      rw [h1, h2]

/-! ## RCON handler (handlers.go, rconHandler)

The decoded JSON body: `badJSON` is a body `json.Decode` rejects;
`decoded none` is a missing (or JSON-null) `command` field, i.e. Go's
`requestBody.Command == nil`; otherwise the `command` field's JSON value.
The result is the HTTP status plus the commands passed to
`ExecuteCommand`, in order. -/

inductive JValue where
  | str (s : String)
  | arr (elems : List JValue)
  | num (q : ℚ)
  | boolean (b : Bool)
  | obj (fields : List (String × JValue))

inductive RconBody where
  | badJSON
  | decoded (command : Option JValue)

/-- The array loop of `rconHandler`: execute the elements that are
non-empty strings, silently skipping everything else. -/
def nonEmptyStrings (l : List JValue) : List String :=
  l.filterMap (fun c =>
    match c with
    | .str s => if s = "" then none else some s
    | _ => none)

/-- `rconHandler` (handlers.go), for a POST request, as a function from the
decoded body to (status, executed commands). -/
def rconHandler : RconBody → ℕ × List String
  | .badJSON => (400, [])
  | .decoded none => (400, [])
  | .decoded (some (.str cmd)) =>
      if cmd = "" then (400, []) else (204, [cmd])
  | .decoded (some (.arr cmd)) =>
      if cmd.length = 0 then (400, []) else (204, nonEmptyStrings cmd)
  | .decoded (some _) => (400, [])

/-- The bodies the claim lists as the only 400 cases: an undecodable body,
a missing command, an empty string, an empty array, or a command of any
other JSON type. -/
def returns400 : RconBody → Prop
  | .badJSON => True
  | .decoded none => True
  | .decoded (some (.str s)) => s = ""
  | .decoded (some (.arr l)) => l = []
  | .decoded (some _) => True

/-- C10: a non-empty `command` array yields 204 and executes exactly its
non-empty string elements (even when all are skipped), and 400 occurs
exactly for an undecodable body, a missing command, an empty string, an
empty array, or a command of any other JSON type. -/
theorem rconHandler_array_spec (b : RconBody) :
    (∀ l, b = .decoded (some (.arr l)) → l ≠ [] →
        rconHandler b = (204, nonEmptyStrings l))
    ∧ ((rconHandler b).1 = 400 ↔ returns400 b) := by
  constructor
  · rintro l rfl hl
    have hlen : l.length ≠ 0 := by simpa using hl
    simp [rconHandler, hlen]
  · cases b with
    | badJSON => simp [rconHandler, returns400]
    | decoded o =>
        cases o with
        | none => simp [rconHandler, returns400]
        | some v =>
            cases v with
            | str s =>
                by_cases hs : s = ""
                · subst hs; simp [rconHandler, returns400]
                · simp only [rconHandler, returns400, if_neg hs]
                  exact ⟨fun h => by simp at h, fun h => absurd h hs⟩
            | arr l =>
                by_cases hl : l.length = 0
                · have : l = [] := List.length_eq_zero.mp hl
                  subst this; simp [rconHandler, returns400]
                · simp only [rconHandler, returns400, if_neg hl]
                  refine ⟨fun h => by simp at h, fun h => ?_⟩
                  exact absurd (by simp [h]) hl
            | num q => simp [rconHandler, returns400]
            | boolean bv => simp [rconHandler, returns400]
            | obj fs => simp [rconHandler, returns400]

/-- Witness for C10: an array mixing an empty string, a number and a real
command yields 204 and executes only the real command. -/
theorem rconHandler_array_spec_witness :
    rconHandler (.decoded (some (.arr [.str "", .num 2, .str "status"])))
      = (204, ["status"]) := by
  have h := (rconHandler_array_spec
    (.decoded (some (.arr [.str "", .num 2, .str "status"])))).1
  have h2 := h [.str "", .num 2, .str "status"] rfl (by simp)
  rw [h2]
  rfl

/-! ## Lock-free token bucket (rate limiter source file)

The packed `uint64` state is modelled by its two halves: `tokens` is the
upper 32 bits (fixed-point milli-tokens, `uint32(tokens * 1000)`), `time`
the lower 32 bits (Unix seconds).  Go `float64` arithmetic is modelled
over `ℚ`; the float-to-integer conversions truncate toward zero on the
non-negative values that occur here, i.e. `Nat.floor`.  The CAS loop is
modelled by its successful iteration (a failed CAS retries with a fresh
load, performing no update). -/

def tokenMultiplier : ℕ := 1000

structure atomicTokenBucket where
  tokens : ℕ
  time : ℕ
  deriving DecidableEq

/-- `newAtomicTokenBucket`: full capacity, stamped with the current second. -/
def newAtomicTokenBucket (capacity : ℚ) (now : ℕ) : atomicTokenBucket :=
  { tokens := Nat.floor (capacity * (tokenMultiplier : ℚ)), time := now }

/-- The refill computation inside `atomicTokenBucket.allow`:
`oldTokens + elapsed*rate`, clamped to `capacity`. -/
def refillValue (rate capacity : ℚ) (now : ℕ) (tb : atomicTokenBucket) : ℚ :=
  let oldTokens : ℚ := (tb.tokens : ℚ) / (tokenMultiplier : ℚ)
  let elapsed : ℚ := (now : ℚ) - (tb.time : ℚ)
  let refilled := oldTokens + elapsed * rate
  if refilled > capacity then capacity else refilled

/-- `atomicTokenBucket.allow`: reject when the refilled tokens are below 1,
else consume one token and commit the repacked state. -/
def atomicTokenBucket.allow (rate capacity : ℚ) (now : ℕ)
    (tb : atomicTokenBucket) : Bool × atomicTokenBucket :=
  let newTokens := refillValue rate capacity now tb
  if newTokens < 1 then (false, tb)
  else (true, { tokens := Nat.floor ((newTokens - 1) * (tokenMultiplier : ℚ))
                time := now })

/-- A sequence of `allow` calls on one key's bucket, at the given seconds. -/
def runAllows (rate capacity : ℚ) (times : List ℕ)
    (tb : atomicTokenBucket) : atomicTokenBucket :=
  times.foldl (fun b t => (atomicTokenBucket.allow rate capacity t b).2) tb

/-- `n` back-to-back `allow` calls in the same instant, returning their
results in order. -/
def allowSeq (rate capacity : ℚ) (now : ℕ) :
    ℕ → atomicTokenBucket → List Bool
  | 0, _ => []
  | n + 1, tb =>
      let r := atomicTokenBucket.allow rate capacity now tb
      r.1 :: allowSeq rate capacity now n r.2

lemma allow_tokens_le (C : ℕ) (rate : ℚ) (now : ℕ) (tb : atomicTokenBucket)
    (h : tb.tokens ≤ C * 1000) :
    ((atomicTokenBucket.allow rate (C : ℚ) now tb).2).tokens ≤ C * 1000 := by
  simp only [atomicTokenBucket.allow]
  split_ifs with h1
  · exact h
  · have hle : refillValue rate (C : ℚ) now tb ≤ (C : ℚ) := by
      simp only [refillValue]
      split_ifs with h2
      · exact le_rfl
      · exact not_lt.mp h2
    have hq : (refillValue rate (C : ℚ) now tb - 1) * (tokenMultiplier : ℚ)
        ≤ ((C * 1000 : ℕ) : ℚ) := by
      have : refillValue rate (C : ℚ) now tb - 1 ≤ (C : ℚ) := by linarith
      have hmul : (refillValue rate (C : ℚ) now tb - 1) * (tokenMultiplier : ℚ)
          ≤ (C : ℚ) * (tokenMultiplier : ℚ) := by
        apply mul_le_mul_of_nonneg_right this
        norm_num [tokenMultiplier]
      calc (refillValue rate (C : ℚ) now tb - 1) * (tokenMultiplier : ℚ)
          ≤ (C : ℚ) * (tokenMultiplier : ℚ) := hmul
        _ = ((C * 1000 : ℕ) : ℚ) := by push_cast [tokenMultiplier]; ring
    calc Nat.floor ((refillValue rate (C : ℚ) now tb - 1) * (tokenMultiplier : ℚ))
        ≤ Nat.floor (((C * 1000 : ℕ) : ℚ)) := Nat.floor_le_floor hq
      _ = C * 1000 := Nat.floor_natCast _

lemma runAllows_tokens_le (C : ℕ) (rate : ℚ) (times : List ℕ) :
    ∀ tb : atomicTokenBucket, tb.tokens ≤ C * 1000 →
      (runAllows rate (C : ℚ) times tb).tokens ≤ C * 1000 := by
  induction times with
  | nil => intro tb h; exact h
  | cons t ts ih =>
      intro tb h
      exact ih _ (allow_tokens_le C rate t tb h)

lemma cast_mul_thousand_div (m : ℕ) :
    ((m * 1000 : ℕ) : ℚ) / (tokenMultiplier : ℚ) = (m : ℕ) := by
  rw [show ((m * 1000 : ℕ) : ℚ) = (m : ℚ) * 1000 by push_cast; ring]
  rw [show ((tokenMultiplier : ℕ) : ℚ) = 1000 by norm_num [tokenMultiplier]]
  rw [mul_div_cancel_right₀ _ (by norm_num : (1000 : ℚ) ≠ 0)]

lemma allow_burst_step (C m : ℕ) (h1 : 1 ≤ m) (hC : m ≤ C) (rate : ℚ)
    (t0 : ℕ) :
    atomicTokenBucket.allow rate (C : ℚ) t0 ⟨m * 1000, t0⟩
      = (true, ⟨(m - 1) * 1000, t0⟩) := by
  have hval : refillValue rate (C : ℚ) t0 ⟨m * 1000, t0⟩ = (m : ℚ) := by
    simp only [refillValue, sub_self, zero_mul, add_zero]
    rw [cast_mul_thousand_div]
    rw [if_neg (not_lt.mpr (by exact_mod_cast hC))]
  simp only [atomicTokenBucket.allow]
  rw [hval]
  rw [if_neg (not_lt.mpr (by exact_mod_cast h1))]
  have hsub : ((m : ℚ) - 1) = ((m - 1 : ℕ) : ℚ) := by
    rw [Nat.cast_sub h1, Nat.cast_one]
  rw [hsub]
  have hfloor : Nat.floor (((m - 1 : ℕ) : ℚ) * (tokenMultiplier : ℚ))
      = (m - 1) * 1000 := by
    rw [show ((m - 1 : ℕ) : ℚ) * (tokenMultiplier : ℚ)
        = (((m - 1) * 1000 : ℕ) : ℚ) by push_cast [tokenMultiplier]; ring]
    exact Nat.floor_natCast _
  rw [hfloor]

lemma allow_burst_exhausted (C : ℕ) (rate : ℚ) (t0 : ℕ) :
    atomicTokenBucket.allow rate (C : ℚ) t0 ⟨0, t0⟩ = (false, ⟨0, t0⟩) := by
  have hval : refillValue rate (C : ℚ) t0 ⟨0, t0⟩ = 0 := by
    simp only [refillValue, sub_self, zero_mul, add_zero, Nat.cast_zero,
      zero_div]
    rw [if_neg (not_lt.mpr (by positivity))]
  simp only [atomicTokenBucket.allow]
  rw [hval]
  rw [if_pos (by norm_num)]

lemma allowSeq_burst (C : ℕ) (rate : ℚ) (t0 : ℕ) :
    ∀ m, m ≤ C → allowSeq rate (C : ℚ) t0 (m + 1) ⟨m * 1000, t0⟩
      = List.replicate m true ++ [false] := by
  intro m
  induction m with
  | zero =>
      intro _
      simp only [allowSeq, zero_mul, allow_burst_exhausted]
      rfl
  | succ m ih =>
      intro hm
      have hstep := allow_burst_step C (m + 1) (Nat.succ_le_succ (Nat.zero_le m))
        hm rate t0
      have hcons : allowSeq rate (C : ℚ) t0 (m + 1 + 1) ⟨(m + 1) * 1000, t0⟩
          = true :: allowSeq rate (C : ℚ) t0 (m + 1) ⟨m * 1000, t0⟩ := by
        show (atomicTokenBucket.allow rate (C : ℚ) t0 ⟨(m + 1) * 1000, t0⟩).1
            :: allowSeq rate (C : ℚ) t0 (m + 1)
              (atomicTokenBucket.allow rate (C : ℚ) t0 ⟨(m + 1) * 1000, t0⟩).2
          = true :: allowSeq rate (C : ℚ) t0 (m + 1) ⟨m * 1000, t0⟩
        rw [hstep]
        rfl
      rw [hcons, ih (by omega)]
      rfl

/-- C5: for every whole-number capacity `C` (the configured
requests-per-minute), every rate, and every sequence of `allow` calls at
arbitrary seconds on one key's bucket, the stored token count never exceeds
`C` (in fixed-point, `C * 1000` milli-tokens); a successful consume always
happens from a refilled value of at least one token (so the committed value
is never negative); and on a fresh bucket a burst of `C` immediate calls
all succeed while the `(C+1)`-th in the same instant fails. -/
theorem rateLimiter_allow_invariants (C : ℕ) (rate : ℚ) (t0 : ℕ)
    (times : List ℕ) :
    (runAllows rate (C : ℚ) times (newAtomicTokenBucket (C : ℚ) t0)).tokens
        ≤ C * 1000
    ∧ (∀ (tb : atomicTokenBucket) (now : ℕ),
        (atomicTokenBucket.allow rate (C : ℚ) now tb).1 = true →
          1 ≤ refillValue rate (C : ℚ) now tb)
    ∧ allowSeq rate (C : ℚ) t0 (C + 1) (newAtomicTokenBucket (C : ℚ) t0)
        = List.replicate C true ++ [false] := by
  have hfresh : newAtomicTokenBucket (C : ℚ) t0
      = (⟨C * 1000, t0⟩ : atomicTokenBucket) := by
    unfold newAtomicTokenBucket
    have : (C : ℚ) * (tokenMultiplier : ℚ) = ((C * 1000 : ℕ) : ℚ) := by
      push_cast [tokenMultiplier]; ring
    rw [this, Nat.floor_natCast]
  refine ⟨?_, ?_, ?_⟩
  · rw [hfresh]
    exact runAllows_tokens_le C rate times _ le_rfl
  · intro tb now h
    simp only [atomicTokenBucket.allow] at h
    by_cases h1 : refillValue rate (C : ℚ) now tb < 1
    · rw [if_pos h1] at h; simp at h
    · exact not_lt.mp h1
  · rw [hfresh]
    exact allowSeq_burst C rate t0 C le_rfl

/-- Witness for C5 at capacity 5 (the login limiter), rate 1/12 token per
second: the token bound after three calls, a concrete successful consume
with at least one refilled token, and the burst pattern 5 successes then
one failure. -/
theorem rateLimiter_allow_invariants_witness :
    (runAllows (1/12) ((5 : ℕ) : ℚ) [0, 3, 100]
        (newAtomicTokenBucket ((5 : ℕ) : ℚ) 0)).tokens ≤ 5 * 1000
    ∧ (1 : ℚ) ≤ refillValue (1/12) ((5 : ℕ) : ℚ) 0 ⟨2 * 1000, 0⟩
    ∧ allowSeq (1/12) ((5 : ℕ) : ℚ) 0 6 (newAtomicTokenBucket ((5 : ℕ) : ℚ) 0)
        = List.replicate 5 true ++ [false] := by
  have h := rateLimiter_allow_invariants 5 (1/12) 0 [0, 3, 100]
  refine ⟨h.1, h.2.1 ⟨2 * 1000, 0⟩ 0 ?_, h.2.2⟩
  rw [allow_burst_step 5 2 (by decide) (by decide) (1/12) 0]

/-! ## Credential check (handlers.go, checkCredentials)

`subtle.ConstantTimeCompare` returns 0 immediately when the operand
lengths differ and otherwise compares every byte; its running time is a
function of the two operand lengths and nothing else.  The instrumented
trace below records, for each operation `checkCredentials` evaluates, the
lengths that determine its running time. -/

structure AuthEnv where
  adminUsername : List Char
  adminPassword : List Char
  passwordSalt : List Char

/-- `subtle.ConstantTimeCompare` as a boolean: equal-length and equal. -/
def ConstantTimeCompare (x y : List Char) : Bool :=
  if x.length = y.length then x == y else false

/-- Modelled from the spec: `computePasswordHash` is the SHA-512 hex digest
of `password + salt` (`crypto/sha512` is an external library).  The
stand-in is an executable digest of the same fixed 128-hex-character
length; the property proved here depends only on that length and on the
digest being a function of `password + salt`. -/
def computePasswordHash (password salt : List Char) : List Char :=
  let seed := (password ++ salt).foldl (fun a c => (a * 31 + c.toNat) % 16) 7
  List.replicate 128 (Char.ofNat (48 + seed))

/-- `checkCredentials` (handlers.go): both comparisons are computed before
the conjunction; neither is skipped when the other fails. -/
def checkCredentials (env : AuthEnv) (username passwordHash : List Char) :
    Bool :=
  let usernameMatch := ConstantTimeCompare username env.adminUsername
  let expectedHash := computePasswordHash env.adminPassword env.passwordSalt
  let hashMatch := ConstantTimeCompare passwordHash expectedHash
  usernameMatch && hashMatch

inductive CredStep where
  | compare (xlen ylen : ℕ)
  | digest (inputLen : ℕ)
  deriving DecidableEq

/-- The operations `checkCredentials` evaluates, in order, with the operand
lengths that determine each operation's running time.  The straight-line
source evaluates the username comparison, the digest, and the hash
comparison on every call. -/
def checkCredentialsTrace (env : AuthEnv) (username passwordHash : List Char) :
    List CredStep :=
  [ .compare username.length env.adminUsername.length,
    .digest (env.adminPassword ++ env.passwordSalt).length,
    .compare passwordHash.length
      (computePasswordHash env.adminPassword env.passwordSalt).length ]

/-- C8: `checkCredentials` evaluates both constant-time comparisons on
every call, and its operation trace (hence its running time) is a function
of the input lengths only: a wrong username and a wrong password hash of
equal length produce structurally identical executions. -/
theorem checkCredentials_constantTime (env : AuthEnv)
    (u1 h1 u2 h2 : List Char)
    (hu : u1.length = u2.length) (hh : h1.length = h2.length) :
    checkCredentialsTrace env u1 h1 = checkCredentialsTrace env u2 h2
    ∧ (∀ u h, checkCredentials env u h
        = (ConstantTimeCompare u env.adminUsername
            && ConstantTimeCompare h
              (computePasswordHash env.adminPassword env.passwordSalt))) := by
  constructor
  · simp [checkCredentialsTrace, hu, hh]
  · intro u h; rfl

/-- Witness for C8: a wrong username with the right-length hash versus the
right username with a wrong hash, all lengths matching pairwise. -/
theorem checkCredentials_constantTime_witness :
    checkCredentialsTrace ⟨[], [], []⟩ [Char.ofNat 120] (List.replicate 128 (Char.ofNat 97))
      = checkCredentialsTrace ⟨[], [], []⟩ [Char.ofNat 121] (List.replicate 128 (Char.ofNat 98))
    ∧ (∀ u h, checkCredentials ⟨[], [], []⟩ u h
        = (ConstantTimeCompare u []
            && ConstantTimeCompare h (computePasswordHash [] []))) := by
  exact checkCredentials_constantTime ⟨[], [], []⟩ _ _ _ _ (by decide) (by simp)

/-! ## Session tokens (auth.go, generateToken / validateToken)

The JWT claims are `{role, username, iat, exp}`; `jwtExpiration` is 24
hours.  Signing and verification (`golang-jwt`, HMAC-SHA256) are an
external library; they are modelled by an executable keyed digest of the
encoded claims, with validation recomputing and comparing that digest and
then checking expiry, exactly as `jwt.ParseWithClaims` does. -/

structure Claims where
  role : String
  username : String
  iat : ℕ
  exp : ℕ
  deriving DecidableEq

/-- `jwtExpiration = 24 * time.Hour`, in seconds. -/
def jwtExpirationSeconds : ℕ := 24 * 60 * 60

/-- Modelled from the spec: the HMAC-SHA256 signature over the encoded
claims under the process-lifetime secret (the `golang-jwt` library is
external).  Any executable keyed digest serves; the properties proved
depend only on validation recomputing the same digest. -/
def signClaims (secret : List ℕ) (c : Claims) : List ℕ :=
  let payload := c.role.data.map Char.toNat ++ [0]
    ++ c.username.data.map Char.toNat ++ [0, c.iat, c.exp]
  [(secret ++ payload).foldl (fun a b => (a * 131 + b + 1) % 1000003) 0,
   payload.length]

structure Token where
  claims : Claims
  sig : List ℕ
  deriving DecidableEq

/-- `generateToken` (auth.go): role "admin", the given username, issued
now, expiring 24 hours later, signed with the secret. -/
def generateToken (secret : List ℕ) (username : String) (now : ℕ) : Token :=
  let c : Claims := { role := "admin", username := username, iat := now,
                      exp := now + jwtExpirationSeconds }
  { claims := c, sig := signClaims secret c }

/-- `validateToken` (auth.go): parse error (bad signature) or expiry makes
it return an error; otherwise the embedded claims. -/
def validateToken (secret : List ℕ) (now : ℕ) (t : Token) :
    Except String Claims :=
  if t.sig = signClaims secret t.claims then
    if now < t.claims.exp then .ok t.claims
    else .error "token is expired"
  else .error "signature is invalid"

/-- C7: a token issued by `generateToken` validates, at any time strictly
before its 24-hour expiry, to claims with the same username and role
"admin"; validation returns an error at and after expiry, and returns an
error for any corrupted signature at any time. -/
theorem token_issue_validate (secret : List ℕ) (username : String)
    (t0 t : ℕ) :
    (t < t0 + jwtExpirationSeconds →
      validateToken secret t (generateToken secret username t0)
        = .ok { role := "admin", username := username, iat := t0,
                exp := t0 + jwtExpirationSeconds })
    ∧ (t0 + jwtExpirationSeconds ≤ t →
      ∃ e, validateToken secret t (generateToken secret username t0)
        = .error e)
    ∧ (∀ sig', sig' ≠ (generateToken secret username t0).sig → ∀ t',
      ∃ e, validateToken secret t'
          { claims := (generateToken secret username t0).claims, sig := sig' }
        = .error e) := by
  have hc : (generateToken secret username t0).claims
      = { role := "admin", username := username, iat := t0,
          exp := t0 + jwtExpirationSeconds } := rfl
  have hs : (generateToken secret username t0).sig
      = signClaims secret (generateToken secret username t0).claims := rfl
  refine ⟨?_, ?_, ?_⟩
  · intro ht
    unfold validateToken
    rw [hs, if_pos rfl, hc]
    dsimp only
    rw [if_pos ht]
  · intro ht
    refine ⟨"token is expired", ?_⟩
    unfold validateToken
    rw [hs, if_pos rfl, hc]
    dsimp only
    rw [if_neg (not_lt.mpr ht)]
  · intro sig' hsig t'
    refine ⟨"signature is invalid", ?_⟩
    have hne : sig'
        ≠ signClaims secret (generateToken secret username t0).claims :=
      hsig
    unfold validateToken
    rw [if_neg hne]

/-- Witness for C7: a concrete token validated one second before expiry,
at expiry, and with an emptied signature. -/
theorem token_issue_validate_witness :
    validateToken [1, 2] 86399 (generateToken [1, 2] "admin" 0)
      = .ok { role := "admin", username := "admin", iat := 0, exp := 86400 }
    ∧ (∃ e, validateToken [1, 2] 86400 (generateToken [1, 2] "admin" 0)
        = .error e)
    ∧ (∃ e, validateToken [1, 2] 5
          { claims := (generateToken [1, 2] "admin" 0).claims, sig := [] }
        = .error e) := by
  have h1 := token_issue_validate [1, 2] "admin" 0 86399
  have h2 := token_issue_validate [1, 2] "admin" 0 86400
  exact ⟨h1.1 (by decide), h2.2.1 (by decide), h1.2.2 [] (by decide) 5⟩

/-! ## HTTP entry point (Server.ServeHTTP and init from sfu.go)

`init` leaves `loginRateLimiter` and `rconRateLimiter` as `nil` pointers
when `ADMIN_PANEL_PASSWORD` is unset (the disabled state); a `nil`
`*RateLimiter` is `none`.  Calling `Allow` through `Middleware` on a `nil`
receiver dereferences `rl.visitors` and panics, modelled as `crash`.  The
`rest` parameter abstracts whatever a handler does after its
disabled-state gate (body parsing, credential checks, websocket traffic),
which claim C1 never reaches. -/

structure RateLimiterConfig where
  rate : ℚ
  capacity : ℚ

structure ServerState where
  adminUsername : String
  adminPassword : String
  loginRateLimiter : Option RateLimiterConfig
  rconRateLimiter : Option RateLimiterConfig

/-- The credential-loading part of `init` (sfu.go): the username defaults
to "admin", and the JWT secret, salt and both rate limiters are only set
up when a password is configured. -/
def serverInit (adminUserEnv adminPassEnv : String) : ServerState :=
  { adminUsername := if adminUserEnv = "" then "admin" else adminUserEnv
    adminPassword := adminPassEnv
    loginRateLimiter :=
      if adminPassEnv = "" then none else some ⟨5 / 60, 5⟩
    rconRateLimiter :=
      if adminPassEnv = "" then none else some ⟨30 / 60, 30⟩ }

inductive HTTPMethod where
  | get
  | post
  | otherMethod
  deriving DecidableEq

inductive HTTPOutcome where
  | status (code : ℕ)
  | upgraded
  | crash
  deriving DecidableEq

/-- The disabled-state check shared by every privileged handler:
`adminPassword == "" || adminUsername == ""`. -/
def adminDisabled (s : ServerState) : Bool :=
  s.adminPassword == "" || s.adminUsername == ""

/-- The disabled-state gate at the top of `loginHandler`, `authMiddleware`,
`logsWebSocketHandler` and `adminHandler`: 503 when disabled, else the
handler's remaining work. -/
def disabledGate (s : ServerState) (rest : HTTPOutcome) : HTTPOutcome :=
  if adminDisabled s then .status 503 else rest

/-- `saltHandler` (auth.go): 503 when disabled, 405 for non-GET, else the
salt response. -/
def saltHandler (s : ServerState) (method : HTTPMethod) : HTTPOutcome :=
  if adminDisabled s then .status 503
  else if method ≠ .get then .status 405
  else .status 200

/-- `RateLimiter.Middleware` wrapped around a handler: on a `nil` limiter
pointer, `rl.Allow` dereferences `rl.visitors` and panics; otherwise the
request proceeds when the per-IP bucket allows it and is rejected with 429
when not (`allowIP` abstracts the bucket decision for the caller's IP). -/
def rateLimiterMiddleware (rl : Option RateLimiterConfig) (allowIP : Bool)
    (next : HTTPOutcome) : HTTPOutcome :=
  match rl with
  | none => .crash
  | some _ => if allowIP then next else .status 429

/-- `Server.ServeHTTP` (routing source file): the path switch, with the
rate-limiter wrapping of `POST /v1/auth` and `/v1/rcon` exactly as in the
source.  Static file serving is collapsed to a 200/404-style status. -/
def ServeHTTP (s : ServerState) (allowIP : Bool) (path : String)
    (method : HTTPMethod) (rest : HTTPOutcome) : HTTPOutcome :=
  if path = "/websocket" then .upgraded
  else if path = "/v1/auth" then
    match method with
    | .get => saltHandler s .get
    | .post => rateLimiterMiddleware s.loginRateLimiter allowIP
        (disabledGate s rest)
    | .otherMethod => .status 405
  else if path = "/v1/config" then .status 200
  else if path = "/v1/rcon" then
    rateLimiterMiddleware s.rconRateLimiter allowIP (disabledGate s rest)
  else if path = "/websocket/logs" then disabledGate s rest
  else if path = "/admin" ∨ path = "/admin/" then disabledGate s rest
  else .status 200

/-- C1 is violated (code bug): with no operator password configured, the
rate limiters are `nil`, so `POST /v1/auth` and `/v1/rcon` panic on the
`nil` limiter instead of answering 503; only the log-stream, admin and
salt endpoints answer 503. -/
theorem disabled_state_login_rcon_crash (allowIP : Bool)
    (rest : HTTPOutcome) :
    ServeHTTP (serverInit "" "") allowIP "/v1/auth" .post rest = .crash
    ∧ ServeHTTP (serverInit "" "") allowIP "/v1/rcon" .post rest = .crash
    ∧ ServeHTTP (serverInit "" "") allowIP "/websocket/logs" .get rest
        = .status 503
    ∧ ServeHTTP (serverInit "" "") allowIP "/admin" .get rest = .status 503
    ∧ ServeHTTP (serverInit "" "") allowIP "/v1/auth" .get rest
        = .status 503 := by
  refine ⟨?_, ?_, ?_, ?_, ?_⟩ <;>
    simp [ServeHTTP, serverInit, rateLimiterMiddleware, disabledGate,
      saltHandler, adminDisabled]

/-! ## Address-pool admission (config.go, websocketHandler)

The pool itself (`goxash3d-fwgs` `BytesPool`) is an external package.
Modelled from the spec: the pool is a fixed set of one-byte indices,
`acquire() -> (index, ok)` removes and returns a free index and reports
`ok = false` (with a zero index) when exhausted; `release(index)` returns
it.  The admission step of `websocketHandler` is translated from the
source: `index, _ := pool.TryGet()` discards `ok` and the connection
proceeds with the returned index unconditionally. -/

structure BytesPool where
  free : List ℕ

def NewBytesPool (n : ℕ) : BytesPool := ⟨List.range n⟩

/-- Modelled from the spec: `TryGet` yields `(index, true)` removing a free
index, or `(0, false)` when the pool is exhausted. -/
def BytesPool.TryGet (p : BytesPool) : ℕ × Bool × BytesPool :=
  match p.free with
  | [] => (0, false, p)
  | i :: rest => (i, true, ⟨rest⟩)

inductive AdmitOutcome where
  | accepted (index : ℕ)
  | rejected
  deriving DecidableEq

/-- The admission step of `websocketHandler` (config.go):
`index, _ := pool.TryGet()` — the `ok` flag is bound to `_` and the
session is created with `ip[0] = index` in every case. -/
def websocketAdmit (p : BytesPool) : AdmitOutcome × BytesPool :=
  let r := p.TryGet
  (.accepted r.1, r.2.2)

/-- C2 is violated (code bug): on a pool of capacity 1, a first connection
takes index 0; the pool then reports exhaustion (`ok = false`), yet a
second concurrent connection is still accepted — with index 0, the live
first session's index — instead of being rejected at admission. -/
theorem exhausted_pool_accepts_live_index :
    (websocketAdmit (NewBytesPool 1)).1 = .accepted 0
    ∧ ((websocketAdmit (NewBytesPool 1)).2).TryGet.2.1 = false
    ∧ (websocketAdmit ((websocketAdmit (NewBytesPool 1)).2)).1
        = .accepted 0 := by
  refine ⟨rfl, rfl, rfl⟩

/-! ## Log-stream subscribe (logging.go + handlers.go)

One authenticated subscriber is observed through the sequence the handler
performs after a successful auth: `sendHistory` (a `GetAll` snapshot of
the ring, sent oldest-to-newest), then registration of the client channel
in `logClients`.  `publishLine` is `broadcastLog` followed by the
dispatcher `logBroadcaster` delivering the line to every channel
registered at that moment; the subscriber's private queue is taken as
never full, so any line it misses below is missed solely because of the
snapshot-then-register ordering, not because of queue overflow. -/

structure FanoutObs where
  cb : CircularBuffer String
  subRegistered : Bool
  subReceived : List String

def fanoutInit (capacity : ℕ) : FanoutObs :=
  { cb := NewCircularBuffer String capacity
    subRegistered := false
    subReceived := [] }

/-- `broadcastLog` + `logBroadcaster`: append to the ring; deliver to the
observed subscriber only when its channel is already registered. -/
def publishLine (s : FanoutObs) (line : String) : FanoutObs :=
  { cb := s.cb.Add line
    subRegistered := s.subRegistered
    subReceived :=
      if s.subRegistered then s.subReceived ++ [line] else s.subReceived }

def publishAll (s : FanoutObs) (lines : List String) : FanoutObs :=
  lines.foldl publishLine s

/-- `sendHistory` (logging.go): the `GetAll` snapshot delivered to the
subscriber, oldest-to-newest. -/
def sendHistoryStep (s : FanoutObs) : FanoutObs :=
  { s with subReceived := s.subReceived ++ s.cb.GetAll.reduceOption }

/-- The registration step of `logsWebSocketHandler` (handlers.go): after
history was sent, `logClients[conn] = clientChan`. -/
def registerStep (s : FanoutObs) : FanoutObs :=
  { s with subRegistered := true }

/-- The subscriber lifecycle of `logsWebSocketHandler` with publishes
interleaved: `pre` published before the history snapshot, `mid` between
the snapshot and the registration, `post` after registration. -/
def logsSession (capacity : ℕ) (pre mid post : List String) : FanoutObs :=
  publishAll
    (registerStep (publishAll (sendHistoryStep (publishAll
      (fanoutInit capacity) pre)) mid))
    post

lemma reduceOption_map_some (l : List α) : (l.map some).reduceOption = l := by
  induction l with
  | nil => rfl
  | cons a l ih => simp [ih]

lemma publishAll_unregistered (lines : List String) :
    ∀ s : FanoutObs, s.subRegistered = false →
      (publishAll s lines).cb = s.cb.addAll lines
      ∧ (publishAll s lines).subRegistered = false
      ∧ (publishAll s lines).subReceived = s.subReceived := by
  induction lines with
  | nil => intro s _; exact ⟨rfl, by assumption, rfl⟩
  | cons l ls ih =>
      intro s hs
      have hnext : (publishLine s l).subRegistered = false := by
        simp [publishLine, hs]
      obtain ⟨h1, h2, h3⟩ := ih (publishLine s l) hnext
      refine ⟨?_, h2, ?_⟩
      · rw [show publishAll s (l :: ls) = publishAll (publishLine s l) ls
          from rfl, h1]
        rfl
      · rw [show publishAll s (l :: ls) = publishAll (publishLine s l) ls
          from rfl, h3]
        simp [publishLine, hs]

lemma publishAll_registered (lines : List String) :
    ∀ s : FanoutObs, s.subRegistered = true →
      (publishAll s lines).subReceived = s.subReceived ++ lines := by
  induction lines with
  | nil => intro s _; simp [publishAll]
  | cons l ls ih =>
      intro s hs
      have hnext : (publishLine s l).subRegistered = true := by
        simp [publishLine, hs]
      rw [show publishAll s (l :: ls) = publishAll (publishLine s l) ls
        from rfl, ih _ hnext]
      simp [publishLine, hs]

/-- C4 counterexample: a line published between the subscriber's history
snapshot and its registration is in neither the replayed history nor the
live stream — the subscriber receives nothing although a line was
published after it authenticated and before it went live. -/
theorem logsSession_gap :
    (logsSession 1000 [] ["engine line"] []).subReceived = []
    ∧ ¬ "engine line" ∈ (logsSession 1000 [] ["engine line"] []).subReceived := by
  have h : (logsSession 1000 [] ["engine line"] []).subReceived = [] := rfl
  exact ⟨h, by rw [h]; simp⟩

/-- C4 amended: `subscribe` replays the ring snapshot taken at
`sendHistory` time (the newest `capacity` of the lines published so far,
oldest-to-newest) and thereafter delivers exactly the lines published
after registration; lines published between the snapshot and the
registration are delivered in neither phase. -/
theorem logsSession_replay_then_live (capacity : ℕ) (hcap : 0 < capacity)
    (pre mid post : List String) :
    (logsSession capacity pre mid post).subReceived
      = pre.drop (pre.length - capacity) ++ post := by
  obtain ⟨hpc, hpr, hps⟩ :=
    publishAll_unregistered pre (fanoutInit capacity) rfl
  have hsnap : (sendHistoryStep (publishAll (fanoutInit capacity) pre)).subReceived
      = pre.drop (pre.length - capacity) := by
    unfold sendHistoryStep
    rw [hps, hpc]
    show [] ++ ((NewCircularBuffer String capacity).addAll pre).GetAll.reduceOption
      = pre.drop (pre.length - capacity)
    rw [List.nil_append, getAll_addAll capacity hcap pre,
      reduceOption_map_some]
  have hsnapReg : (sendHistoryStep (publishAll (fanoutInit capacity) pre)).subRegistered
      = false := by
    unfold sendHistoryStep
    exact hpr
  obtain ⟨_, hmr, hms⟩ :=
    publishAll_unregistered mid _ hsnapReg
  have hreg : (registerStep (publishAll (sendHistoryStep (publishAll
      (fanoutInit capacity) pre)) mid)).subRegistered = true := rfl
  unfold logsSession
  rw [publishAll_registered post _ hreg]
  show (publishAll (sendHistoryStep (publishAll (fanoutInit capacity) pre))
      mid).subReceived ++ post = _
  rw [hms, hsnap]

/-- Witness for C4 amended at capacity 2: three lines before the snapshot,
one in the gap, one live — the subscriber sees the newest two of the
history plus the live line, and the gap line is lost. -/
theorem logsSession_replay_then_live_witness :
    (logsSession 2 ["a", "b", "c"] ["x"] ["z"]).subReceived
      = ["b", "c", "z"] := by
  have h := logsSession_replay_then_live 2 (by decide) ["a", "b", "c"] ["x"]
    ["z"]
  rw [h]
  rfl

end WebXash
